import Mathlib

/-!
Verification development for the forum-scraper repository (src/script0.1.py).

The Python program is shallowly embedded: pure fragments become Lean
functions, file/network I/O is abstracted into explicit inputs and outputs,
UTC instants used only for comparison (watermarks, post timestamps) are
modelled as integers ordered like the instants they stand for, while the
date parser works on a concrete calendar datetime structure mirroring
Python's `datetime`.
-/

/-! ## Data model (section 3 of the script: thread/post dictionaries) -/

/-- A post record, as built in `scrape_thread` (script0.1.py:503-508).
`timestamp_utc` abstracts the ISO timestamp string: instants are modelled
as integers with the same order. -/
structure PostRecord where
  post_id : String
  author : String
  timestamp_utc : Int
  content : String
deriving DecidableEq

/-- An archived thread record, as built in `main` (script0.1.py:622-628)
and stored under the key `threads` of scraped_data.json. -/
structure ThreadRecord where
  thread_id : String
  thread_title : String
  thread_url : String
  initial_post_author : String
  posts : List PostRecord
deriving DecidableEq

/-! ## Archive merge (`update_output_file`, script0.1.py:60-86)

The Python function loads the archive, builds
`existing_threads = {thread['thread_id']: thread for thread in data['threads']}`
(so for a duplicated id the dict keeps the *last* list element, and the dict
values alias the list elements), then for each incoming `(thread_id, new_thread)`
either appends the not-already-present posts to the aliased existing record and
refreshes the title, or appends the whole new record to the list.  The set
`existing_post_ids` is computed once, before the append loop, and is not
updated while appending. -/

/-- Merge one incoming thread into an existing archived thread
(script0.1.py:73-79): append the incoming posts whose `post_id` is not in the
pre-merge id set, and refresh the title. -/
def updateExisting (t nt : ThreadRecord) : ThreadRecord :=
  let existing_post_ids := t.posts.map (·.post_id)
  { t with
    thread_title := nt.thread_title
    posts := t.posts ++ nt.posts.filter (fun p => !existing_post_ids.contains p.post_id) }

/-- The in-place mutation pass of `update_output_file` over `data['threads']`:
through the `existing_threads` dict, only the *last* list element carrying a
given `thread_id` is aliased, so only that element is mutated; an element is
updated with the (unique, since the batch is a dict) batch record of the same
id, when one exists. -/
def mutatePass : List ThreadRecord → List ThreadRecord → List ThreadRecord
  | [], _ => []
  | t :: rest, batch =>
    (if rest.all (fun u => u.thread_id != t.thread_id) then
      match batch.find? (fun nt => nt.thread_id == t.thread_id) with
      | some nt => updateExisting t nt
      | none => t
    else t) :: mutatePass rest batch

/-- The merge performed by `update_output_file` (script0.1.py:69-81) on the
`threads` list: mutate existing records in place, then append the batch
records whose `thread_id` is new to the archive, in batch order. -/
def update_output_file (old batch : List ThreadRecord) : List ThreadRecord :=
  let existingIds := old.map (·.thread_id)
  mutatePass old batch ++ batch.filter (fun nt => !existingIds.contains nt.thread_id)

/-! ### Basic merge lemmas -/

theorem updateExisting_thread_id (t nt : ThreadRecord) :
    (updateExisting t nt).thread_id = t.thread_id := rfl

theorem mutatePass_map_thread_id (l b : List ThreadRecord) :
    (mutatePass l b).map (·.thread_id) = l.map (·.thread_id) := by
  induction l with
  | nil => rfl
  | cons t rest ih =>
    simp only [mutatePass, List.map_cons, ih, List.cons.injEq, and_true]
    split
    · split
      · exact updateExisting_thread_id ..
      · rfl
    · rfl

theorem mutatePass_length (l b : List ThreadRecord) :
    (mutatePass l b).length = l.length := by
  have h := congrArg List.length (mutatePass_map_thread_id l b)
  simpa using h

theorem ThreadRecord.ext' (a b : ThreadRecord)
    (h1 : a.thread_id = b.thread_id) (h2 : a.thread_title = b.thread_title)
    (h3 : a.thread_url = b.thread_url)
    (h4 : a.initial_post_author = b.initial_post_author)
    (h5 : a.posts = b.posts) : a = b := by
  cases a; cases b; simp_all

theorem updateExisting_posts (t nt : ThreadRecord) :
    (updateExisting t nt).posts =
      t.posts ++ nt.posts.filter
        (fun p => !(t.posts.map (·.post_id)).contains p.post_id) := rfl

theorem updateExisting_title (t nt : ThreadRecord) :
    (updateExisting t nt).thread_title = nt.thread_title := rfl

theorem updateExisting_url (t nt : ThreadRecord) :
    (updateExisting t nt).thread_url = t.thread_url := rfl

theorem updateExisting_author (t nt : ThreadRecord) :
    (updateExisting t nt).initial_post_author = t.initial_post_author := rfl

/-- Re-merging a batch record into an already-updated record changes nothing:
every post of `nt` now has its id among the updated record's post ids. -/
theorem updateExisting_idem (t nt : ThreadRecord) :
    updateExisting (updateExisting t nt) nt = updateExisting t nt := by
  have hnil : nt.posts.filter
      (fun p => !((updateExisting t nt).posts.map (·.post_id)).contains p.post_id)
      = [] := by
    rw [List.filter_eq_nil_iff]
    intro p hp
    simp only [Bool.not_eq_true', Bool.not_eq_false]
    have hmem2 : p.post_id ∈ (updateExisting t nt).posts.map (·.post_id) := by
      rw [updateExisting_posts, List.map_append, List.mem_append]
      by_cases hmem : p.post_id ∈ t.posts.map (·.post_id)
      · exact Or.inl hmem
      · refine Or.inr (List.mem_map.mpr ⟨p, ?_, rfl⟩)
        refine List.mem_filter.mpr ⟨hp, ?_⟩
        simpa using hmem
    simpa using hmem2
  refine ThreadRecord.ext' _ _ rfl rfl rfl rfl ?_
  rw [updateExisting_posts (updateExisting t nt) nt, hnil, List.append_nil]

/-- Merging a record into itself changes nothing. -/
theorem updateExisting_self (t : ThreadRecord) : updateExisting t t = t := by
  have hnil : t.posts.filter (fun p =>
      !(t.posts.map (·.post_id)).contains p.post_id) = [] := by
    rw [List.filter_eq_nil_iff]
    intro p hp
    simp only [Bool.not_eq_true', Bool.not_eq_false]
    have : p.post_id ∈ t.posts.map (·.post_id) := List.mem_map_of_mem _ hp
    simpa using this
  refine ThreadRecord.ext' _ _ rfl rfl rfl rfl ?_
  rw [updateExisting_posts, hnil, List.append_nil]

/-- `all` of a thread-id test only depends on the ids. -/
theorem all_bne_congr (l₁ l₂ : List ThreadRecord)
    (h : l₁.map (·.thread_id) = l₂.map (·.thread_id)) (s : String) :
    l₁.all (fun u => u.thread_id != s) = l₂.all (fun u => u.thread_id != s) := by
  have key : ∀ (l : List ThreadRecord),
      l.all (fun u => u.thread_id != s)
        = (l.map (·.thread_id)).all (fun v => v != s) := by
    intro l
    induction l with
    | nil => rfl
    | cons x rest ih => simp [ih]
  rw [key, key, h]

/-- With batch-wide unique thread ids, the Python dict lookup
(modelled by `find?`) at the id of a member returns that member. -/
theorem find?_self_of_nodup (b : List ThreadRecord)
    (hb : (b.map (·.thread_id)).Nodup) (x : ThreadRecord) (hx : x ∈ b) :
    b.find? (fun nt => nt.thread_id == x.thread_id) = some x := by
  induction b with
  | nil => cases hx
  | cons y rest ih =>
    rw [List.map_cons, List.nodup_cons] at hb
    by_cases hyx : y.thread_id = x.thread_id
    · have hxy : x = y := by
        rcases List.mem_cons.mp hx with h | h
        · exact h
        · exact absurd (hyx ▸ List.mem_map_of_mem (·.thread_id) h) hb.1
      rw [List.find?_cons_of_pos _ (by simp [hyx]), hxy]
    · have hxrest : x ∈ rest := by
        rcases List.mem_cons.mp hx with h | h
        · exact absurd (congrArg (·.thread_id) h.symm) hyx
        · exact h
      rw [List.find?_cons_of_neg _ (by simp [hyx])]
      exact ih hb.2 hxrest

/-- A batch-id-unique list of batch members is a fixed point of the
mutation pass. -/
theorem mutatePass_eq_self (b ns : List ThreadRecord)
    (hb : (b.map (·.thread_id)).Nodup)
    (hns : (ns.map (·.thread_id)).Nodup)
    (hsub : ∀ x ∈ ns, x ∈ b) :
    mutatePass ns b = ns := by
  induction ns with
  | nil => rfl
  | cons x rest ih =>
    rw [List.map_cons, List.nodup_cons] at hns
    have hcond : rest.all (fun u => u.thread_id != x.thread_id) = true := by
      rw [List.all_eq_true]
      intro u hu
      have hne : u.thread_id ≠ x.thread_id := by
        intro he
        exact hns.1 (he ▸ List.mem_map_of_mem (·.thread_id) hu)
      simpa using hne
    have hfind : b.find? (fun nt => nt.thread_id == x.thread_id) = some x :=
      find?_self_of_nodup b hb x (hsub x (List.mem_cons_self x rest))
    simp only [mutatePass, hcond, if_true, hfind, updateExisting_self,
      List.cons.injEq, true_and]
    exact ih hns.2 (fun y hy => hsub y (List.mem_cons_of_mem x hy))

/-- Appending an already-merged suffix that is a fixed point and whose ids
are disjoint from the archive does not disturb a repeated mutation pass. -/
theorem mutatePass_merge_fix (b : List ThreadRecord) :
    ∀ (old ns : List ThreadRecord),
      (∀ x ∈ ns, x.thread_id ∉ old.map (·.thread_id)) →
      mutatePass ns b = ns →
      mutatePass (mutatePass old b ++ ns) b = mutatePass old b ++ ns := by
  intro old
  induction old with
  | nil =>
    intro ns _ hfix
    simpa using hfix
  | cons t rest ih =>
    intro ns hdisj hfix
    have hdisj' : ∀ x ∈ ns, x.thread_id ∉ rest.map (·.thread_id) := by
      intro x hx hmem
      exact hdisj x hx (by simp [hmem])
    have htail := ih ns hdisj' hfix
    -- the element produced for `t` by the first pass
    set e : ThreadRecord :=
      (if rest.all (fun u => u.thread_id != t.thread_id) then
        match b.find? (fun nt => nt.thread_id == t.thread_id) with
        | some nt => updateExisting t nt
        | none => t
      else t) with he_def
    have he_id : e.thread_id = t.thread_id := by
      rw [he_def]
      split
      · split
        · exact updateExisting_thread_id ..
        · rfl
      · rfl
    have hstep : mutatePass (t :: rest) b = e :: mutatePass rest b := rfl
    rw [hstep, List.cons_append]
    have hns_all : ns.all (fun u => u.thread_id != t.thread_id) = true := by
      rw [List.all_eq_true]
      intro u hu
      have hne : u.thread_id ≠ t.thread_id := by
        intro he
        exact hdisj u hu (by simp [he])
      simpa using hne
    have hcond' : (mutatePass rest b ++ ns).all (fun u => u.thread_id != e.thread_id)
        = rest.all (fun u => u.thread_id != t.thread_id) := by
      rw [he_id, List.all_append, hns_all, Bool.and_true]
      exact all_bne_congr _ _ (mutatePass_map_thread_id rest b) _
    show (if (mutatePass rest b ++ ns).all (fun u => u.thread_id != e.thread_id) then
        match b.find? (fun nt => nt.thread_id == e.thread_id) with
        | some nt => updateExisting e nt
        | none => e
      else e) :: mutatePass (mutatePass rest b ++ ns) b = e :: (mutatePass rest b ++ ns)
    rw [htail, hcond', he_id]
    by_cases hcond : rest.all (fun u => u.thread_id != t.thread_id) = true
    · simp only [hcond, if_true]
      cases hfind : b.find? (fun nt => nt.thread_id == t.thread_id) with
      | none =>
        have he_t : e = t := by rw [he_def]; simp [hcond, hfind]
        simp [he_t, hfind]
      | some nt =>
        have he_u : e = updateExisting t nt := by rw [he_def]; simp [hcond, hfind]
        simp [he_u, hfind, updateExisting_idem]
    · simp [hcond]

theorem update_output_file_eq (old batch : List ThreadRecord) :
    update_output_file old batch =
      mutatePass old batch ++ batch.filter (fun nt =>
        !(old.map (·.thread_id)).contains nt.thread_id) := rfl

/-- The batch records appended as brand-new threads are exactly the batch
members whose id is absent from the archive. -/
theorem mem_news (old batch : List ThreadRecord) (nt : ThreadRecord) :
    nt ∈ batch.filter (fun u => !(old.map (·.thread_id)).contains u.thread_id)
      ↔ nt ∈ batch ∧ nt.thread_id ∉ old.map (·.thread_id) := by
  rw [List.mem_filter]
  constructor
  · rintro ⟨h1, h2⟩
    refine ⟨h1, ?_⟩
    intro hmem
    simp only [Bool.not_eq_true'] at h2
    rw [List.contains_eq_any_beq] at h2
    have : (old.map (·.thread_id)).any (fun x => nt.thread_id == x) = true := by
      rw [List.any_eq_true]
      exact ⟨nt.thread_id, hmem, by simp⟩
    rw [this] at h2
    cases h2
  · rintro ⟨h1, h2⟩
    refine ⟨h1, ?_⟩
    simp only [Bool.not_eq_true']
    rw [List.contains_eq_any_beq]
    rw [List.any_eq_false]
    intro x hx
    intro hbeq
    exact h2 ((eq_of_beq hbeq) ▸ hx)

/-- C1: the archive merge is idempotent.  For every archive `A` and every
batch `R` of new thread records (the batch is a Python dict, so its thread
ids are pairwise distinct), merging `R` a second time into the result of
`merge(A, R)` leaves the archive's thread list — ids, titles and posts —
unchanged: `merge(merge(A, R), R) = merge(A, R)`. -/
theorem C1_merge_idempotent (old batch : List ThreadRecord)
    (hb : (batch.map (·.thread_id)).Nodup) :
    update_output_file (update_output_file old batch) batch =
      update_output_file old batch := by
  have hnews_nodup :
      ((batch.filter (fun u =>
        !(old.map (·.thread_id)).contains u.thread_id)).map (·.thread_id)).Nodup :=
    ((List.filter_sublist batch).map (·.thread_id)).nodup hb
  have hnews_sub : ∀ x ∈ batch.filter (fun u =>
      !(old.map (·.thread_id)).contains u.thread_id), x ∈ batch :=
    fun x hx => List.mem_of_mem_filter hx
  have hdisj : ∀ x ∈ batch.filter (fun u =>
      !(old.map (·.thread_id)).contains u.thread_id),
      x.thread_id ∉ old.map (·.thread_id) :=
    fun x hx => ((mem_news old batch x).mp hx).2
  have hfix := mutatePass_eq_self batch _ hb hnews_nodup hnews_sub
  have hids : (update_output_file old batch).map (·.thread_id)
      = old.map (·.thread_id)
        ++ (batch.filter (fun u =>
          !(old.map (·.thread_id)).contains u.thread_id)).map (·.thread_id) := by
    rw [update_output_file_eq, List.map_append, mutatePass_map_thread_id]
  have hfilter2 : batch.filter (fun nt =>
      !((update_output_file old batch).map (·.thread_id)).contains nt.thread_id)
      = [] := by
    rw [List.filter_eq_nil_iff]
    intro nt hnt
    simp only [Bool.not_eq_true', Bool.not_eq_false]
    have hmem : nt.thread_id ∈ (update_output_file old batch).map (·.thread_id) := by
      rw [hids, List.mem_append]
      by_cases hino : nt.thread_id ∈ old.map (·.thread_id)
      · exact Or.inl hino
      · have hmemf : nt ∈ batch.filter (fun u =>
            !(old.map (·.thread_id)).contains u.thread_id) :=
          (mem_news old batch nt).mpr ⟨hnt, hino⟩
        exact Or.inr (List.mem_map_of_mem (fun u => u.thread_id) hmemf)
    simpa using hmem
  rw [update_output_file_eq (update_output_file old batch) batch, hfilter2,
    List.append_nil, update_output_file_eq old batch]
  exact mutatePass_merge_fix batch old _ hdisj hfix

def sampleArchive : List ThreadRecord :=
  [⟨"1", "Alpha", "u1", "ann", [⟨"p1", "ann", 5, "hello"⟩]⟩]

def sampleBatch : List ThreadRecord :=
  [⟨"1", "Alpha v2", "u1", "ben", [⟨"p1", "ann", 5, "hello"⟩, ⟨"p2", "ben", 9, "world"⟩]⟩,
   ⟨"2", "Beta", "u2", "cal", [⟨"q1", "cal", 7, "hey"⟩]⟩]

theorem C1_merge_idempotent_witness :
    (sampleBatch.map (·.thread_id)).Nodup ∧
      update_output_file (update_output_file sampleArchive sampleBatch) sampleBatch
        = update_output_file sampleArchive sampleBatch :=
  ⟨by decide, C1_merge_idempotent sampleArchive sampleBatch (by decide)⟩

/-! ### C8: the merge only appends posts and refreshes titles -/

/-- What the merge may do to a single archived thread record: identity key,
URL and initial author are untouched, the old posts stay in place (new ones
are only appended after them), and the title is either untouched or refreshed
to the title of a batch record with the same thread id. -/
def framePreserved (batch : List ThreadRecord) (t t' : ThreadRecord) : Prop :=
  t'.thread_id = t.thread_id ∧
  t'.thread_url = t.thread_url ∧
  t'.initial_post_author = t.initial_post_author ∧
  (∃ ext, t'.posts = t.posts ++ ext) ∧
  (t'.thread_title = t.thread_title ∨
    ∃ nt ∈ batch, nt.thread_id = t.thread_id ∧ t'.thread_title = nt.thread_title)

theorem framePreserved_refl (batch : List ThreadRecord) (t : ThreadRecord) :
    framePreserved batch t t :=
  ⟨rfl, rfl, rfl, ⟨[], (List.append_nil t.posts).symm⟩, Or.inl rfl⟩

theorem framePreserved_update (batch : List ThreadRecord) (t nt : ThreadRecord)
    (hnt : nt ∈ batch) (hid : nt.thread_id = t.thread_id) :
    framePreserved batch t (updateExisting t nt) :=
  ⟨updateExisting_thread_id t nt, updateExisting_url t nt,
    updateExisting_author t nt, ⟨_, updateExisting_posts t nt⟩,
    Or.inr ⟨nt, hnt, hid, updateExisting_title t nt⟩⟩

theorem mutatePass_framePreserved (l batch : List ThreadRecord) :
    List.Forall₂ (framePreserved batch) l (mutatePass l batch) := by
  induction l with
  | nil => exact List.Forall₂.nil
  | cons t rest ih =>
    refine List.Forall₂.cons ?_ ih
    by_cases hcond : rest.all (fun u => u.thread_id != t.thread_id) = true
    · cases hfind : batch.find? (fun nt => nt.thread_id == t.thread_id) with
      | none =>
        simp only [mutatePass, hcond, if_true, hfind]
        exact framePreserved_refl batch t
      | some nt =>
        simp only [mutatePass, hcond, if_true, hfind]
        exact framePreserved_update batch t nt
          (List.mem_of_find?_eq_some hfind)
          (by have := List.find?_some hfind; exact eq_of_beq this)
    · simp only [mutatePass, if_neg hcond]
      exact framePreserved_refl batch t

/-- C8: merging never removes or reorders archived content.  Every thread
already present in the archive keeps its position; its previous posts list
is an initial segment of its new posts list (posts are only appended after
it), its thread id, URL and initial author are unchanged, and the only other
field the merge may change is the title, refreshed to the value carried by
the batch record with the same thread id. -/
theorem C8_merge_frame (old batch : List ThreadRecord) :
    List.Forall₂ (framePreserved batch) old
      ((update_output_file old batch).take old.length) := by
  have htake : (update_output_file old batch).take old.length
      = mutatePass old batch := by
    rw [update_output_file_eq]
    exact List.take_left' (mutatePass_length old batch)
  rw [htake]
  exact mutatePass_framePreserved old batch

/-! ### C2: post-id uniqueness inside a merged thread -/

def dupArchive : List ThreadRecord :=
  [⟨"1", "Alpha", "u1", "ann", [⟨"p1", "ann", 0, "x"⟩]⟩]

/-- A batch whose single thread carries two posts with the same `post_id`
"p2", an id absent from the archived thread. -/
def dupBatch : List ThreadRecord :=
  [⟨"1", "Alpha", "u1", "ann",
    [⟨"p2", "ben", 1, "y"⟩, ⟨"p2", "cal", 2, "z"⟩]⟩]

/-- C2 fails on the code: `update_output_file` computes `existing_post_ids`
once, before its append loop, and never extends it, so a batch thread holding
two posts with the same (new) `post_id` gets both appended and the merged
thread carries a duplicated post id. -/
theorem C2_dedup_counterexample :
    (update_output_file dupArchive dupBatch).map
        (fun t => t.posts.map (·.post_id)) = [["p1", "p2", "p2"]] ∧
    ([("p1" : String), "p2", "p2"].Nodup ↔ False) := by
  exact ⟨by decide, by decide⟩

theorem mem_mutatePass (l batch : List ThreadRecord) (t' : ThreadRecord)
    (h : t' ∈ mutatePass l batch) :
    (t' ∈ l) ∨ ∃ t ∈ l, ∃ nt ∈ batch, t' = updateExisting t nt := by
  induction l with
  | nil => cases h
  | cons t rest ih =>
    rcases List.mem_cons.mp h with hhead | htail
    · by_cases hcond : rest.all (fun u => u.thread_id != t.thread_id) = true
      · cases hfind : batch.find? (fun nt => nt.thread_id == t.thread_id) with
        | none =>
          simp only [mutatePass, hcond, if_true, hfind] at hhead
          exact Or.inl (hhead ▸ List.mem_cons_self t rest)
        | some nt =>
          simp only [mutatePass, hcond, if_true, hfind] at hhead
          exact Or.inr ⟨t, List.mem_cons_self t rest,
            nt, List.mem_of_find?_eq_some hfind, hhead⟩
      · simp only [mutatePass, if_neg hcond] at hhead
        exact Or.inl (hhead ▸ List.mem_cons_self t rest)
    · rcases ih htail with hl | ⟨u, hu, nt, hnt, he⟩
      · exact Or.inl (List.mem_cons_of_mem t hl)
      · exact Or.inr ⟨u, List.mem_cons_of_mem t hu, nt, hnt, he⟩

/-- Updating a thread whose post ids are pairwise distinct with a batch
record whose post ids are pairwise distinct keeps the post ids pairwise
distinct: appended ids avoid the pre-merge set, and they stay distinct
among themselves as a sub-sequence of the batch record's ids. -/
theorem updateExisting_nodup (t nt : ThreadRecord)
    (h1 : (t.posts.map (·.post_id)).Nodup)
    (h2 : (nt.posts.map (·.post_id)).Nodup) :
    ((updateExisting t nt).posts.map (·.post_id)).Nodup := by
  rw [updateExisting_posts, List.map_append]
  refine List.Nodup.append h1 ?_ ?_
  · exact ((List.filter_sublist nt.posts).map (·.post_id)).nodup h2
  · intro a ha hb
    rcases List.mem_map.mp hb with ⟨p, hp, hpe⟩
    rcases List.mem_filter.mp hp with ⟨_, hpred⟩
    simp only [Bool.not_eq_true'] at hpred
    have : p.post_id ∈ t.posts.map (·.post_id) := hpe ▸ ha
    rw [List.contains_eq_any_beq] at hpred
    have hany : (t.posts.map (·.post_id)).any (fun x => p.post_id == x) = true := by
      rw [List.any_eq_true]
      exact ⟨p.post_id, this, by simp⟩
    rw [hany] at hpred
    cases hpred

/-- C2 amended: after any merge, no two posts of a merged thread share a
`post_id`, provided every archived thread and every batch thread has
pairwise-distinct post ids to begin with.  (Without that proviso the claim
fails, see the counterexample: the code never dedups inside one batch
thread, neither when appending to an existing thread nor when appending a
new thread wholesale.) -/
theorem C2_dedup_amended (old batch : List ThreadRecord)
    (hold : ∀ t ∈ old, (t.posts.map (·.post_id)).Nodup)
    (hbatch : ∀ nt ∈ batch, (nt.posts.map (·.post_id)).Nodup) :
    ∀ t ∈ update_output_file old batch, (t.posts.map (·.post_id)).Nodup := by
  intro t ht
  rw [update_output_file_eq] at ht
  rcases List.mem_append.mp ht with hmut | hnew
  · rcases mem_mutatePass old batch t hmut with hl | ⟨u, hu, nt, hnt, he⟩
    · exact hold t hl
    · exact he ▸ updateExisting_nodup u nt (hold u hu) (hbatch nt hnt)
  · exact hbatch t (List.mem_of_mem_filter hnew)

theorem C2_dedup_amended_witness :
    (∀ t ∈ sampleArchive, (t.posts.map (·.post_id)).Nodup) ∧
    (∀ nt ∈ sampleBatch, (nt.posts.map (·.post_id)).Nodup) ∧
    ∀ t ∈ update_output_file sampleArchive sampleBatch,
      (t.posts.map (·.post_id)).Nodup :=
  ⟨by decide, by decide,
    C2_dedup_amended sampleArchive sampleBatch (by decide) (by decide)⟩

/-! ## Sync state (`load_state`/`save_state` and `main`, script0.1.py:37-58,
563-673)

UTC instants compared by the controller are modelled as integers with the
same order; `epochSentinel` stands for `datetime(2000, 1, 1, tzinfo=utc)`,
the sentinel used both by `load_state` on a missing state file and by the
forced-full-scrape override. -/

def epochSentinel : Int := 0

structure SyncState where
  last_scrape_timestamp : Int
  is_initial_run : Bool
deriving DecidableEq

/-- `load_state` (script0.1.py:37-49): a readable state file yields its
timestamp and flag; any failure yields the epoch sentinel and initial mode. -/
def load_state : Option SyncState → Int × Bool
  | none => (epochSentinel, true)
  | some s => (s.last_scrape_timestamp, s.is_initial_run)

/-- The watermark/mode actually used by the run (script0.1.py:563-570):
`--full` overrides the loaded state with initial mode and the epoch sentinel. -/
def effectiveState (stored : Option SyncState) (force_full_scrape : Bool) :
    Int × Bool :=
  if force_full_scrape then (epochSentinel, true) else load_state stored

/-- Per-post scope test of script0.1.py:502:
`is_initial_run or post_date > last_timestamp`. -/
def inScope (is_initial_run : Bool) (last_timestamp ts : Int) : Bool :=
  is_initial_run || decide (last_timestamp < ts)

/-- The newest-timestamp fold of script0.1.py:611,633-637: start from the
run's watermark and raise it on each strictly newer included post. -/
def newestTimestamp (last : Int) (included : List Int) : Int :=
  included.foldl (fun acc ts => if acc < ts then ts else acc) last

/-- One completed run of `main`, abstracted to its state handling
(script0.1.py:563-673): read the state, apply the `--full` override, keep
the in-scope extracted timestamps, fold the newest one, and write the state
back — every `save_state` call in `main` (lines 664, 666, 671, 673) passes
`is_initial=False`.  `extractedTs` lists the timestamps of the valid
candidate posts seen across the scraped threads. -/
def runSavedState (stored : Option SyncState) (force_full_scrape : Bool)
    (extractedTs : List Int) : SyncState :=
  let st := effectiveState stored force_full_scrape
  let included := extractedTs.filter (inScope st.2 st.1)
  { last_scrape_timestamp := newestTimestamp st.1 included
    is_initial_run := false }

theorem le_newestTimestamp (l : List Int) (a : Int) : a ≤ newestTimestamp a l := by
  unfold newestTimestamp
  induction l generalizing a with
  | nil => exact le_refl a
  | cons x rest ih =>
    refine le_trans ?_ (ih (if a < x then x else a))
    by_cases h : a < x
    · simp [h, le_of_lt h]
    · simp [h]

/-- C3 fails on the code: a forced full re-scrape (`--full`) replaces the
loaded watermark with the epoch sentinel before the fold, so when the posts
seen by the re-scrape are all older than the previously stored watermark
(here: stored watermark 10, one post at 5, taken in scope by initial mode),
the run writes a strictly smaller watermark. -/
theorem C3_watermark_counterexample :
    (runSavedState (some ⟨10, false⟩) true [5]).last_scrape_timestamp
      < (load_state (some ⟨10, false⟩)).1 := by decide

/-- C3 amended: across completed runs the persisted watermark is
monotonically non-decreasing as long as the run is not a forced full
re-scrape; a forced run restarts from the epoch sentinel (its written
watermark is only guaranteed to be at least the sentinel) and can move the
persisted watermark backwards. -/
theorem C3_watermark_monotone_amended (stored : Option SyncState)
    (extractedTs : List Int) :
    (load_state stored).1
        ≤ (runSavedState stored false extractedTs).last_scrape_timestamp ∧
    epochSentinel
        ≤ (runSavedState stored true extractedTs).last_scrape_timestamp :=
  ⟨le_newestTimestamp _ _, le_newestTimestamp _ _⟩

/-- C7: a run started with no readable prior state executes in INITIAL mode
with the epoch-sentinel watermark; in INITIAL mode every post is in scope;
every completed run — forced or not, with or without new posts — persists
`is_initial_run = false`; hence the next completed run that reads the
persisted state without `--full` is not in INITIAL mode. -/
theorem C7_mode_transition :
    load_state none = (epochSentinel, true) ∧
    (∀ last ts, inScope true last ts = true) ∧
    (∀ stored forced extractedTs,
      (runSavedState stored forced extractedTs).is_initial_run = false) ∧
    (∀ stored forced extractedTs,
      (effectiveState (some (runSavedState stored forced extractedTs)) false).2
        = false) :=
  ⟨rfl, fun _ _ => rfl, fun _ _ _ => rfl, fun _ _ _ => rfl⟩

/-! ## Post extraction and the scope filter (`scrape_thread`,
script0.1.py:431-542) -/

/-- A candidate post as resolved from one post element of a thread page
(script0.1.py:455-497): id, author, content, and the parsed date
(`none` when no date was found or parsed). -/
structure RawPost where
  post_id : String
  author : String
  content : String
  post_date : Option Int
deriving DecidableEq

/-- The acceptance test of script0.1.py:500-502: `post_id and
author != "Unknown" and content and post_date`, then — inside — the scope
test `is_initial_run or post_date > last_timestamp`. -/
def acceptPost (is_initial_run : Bool) (last_timestamp : Int) (p : RawPost) :
    Bool :=
  match p.post_date with
  | none => false
  | some d =>
    !p.post_id.isEmpty && p.author != "Unknown" && !p.content.isEmpty &&
      inScope is_initial_run last_timestamp d

/-- The post record appended at script0.1.py:503-508, content truncated to
9500 units. -/
def toRecord (p : RawPost) (d : Int) : PostRecord :=
  ⟨p.post_id, p.author, d, p.content.take 9500⟩

/-- The accumulation loop of `scrape_thread` over the candidate posts of one
thread walk (script0.1.py:455-509), pages flattened: a candidate is appended
iff it passes the acceptance test. -/
def scrape_thread (is_initial_run : Bool) (last_timestamp : Int) :
    List RawPost → List PostRecord
  | [] => []
  | p :: rest =>
    match p.post_date with
    | some d =>
      if acceptPost is_initial_run last_timestamp p then
        toRecord p d :: scrape_thread is_initial_run last_timestamp rest
      else scrape_thread is_initial_run last_timestamp rest
    | none => scrape_thread is_initial_run last_timestamp rest

/-- C5: on a non-initial run a valid extracted post is included iff its
timestamp strictly exceeds the watermark read at run start — equality is
excluded — and on an initial run every valid extracted post is included; the
run's output for a thread is exactly the accepted candidates, in order. -/
theorem C5_scope_filter (last : Int) (p : RawPost) (d : Int)
    (hdate : p.post_date = some d) (hid : p.post_id ≠ "")
    (hauthor : p.author ≠ "Unknown") (hcontent : p.content ≠ "") :
    (acceptPost false last p = true ↔ last < d) ∧
    acceptPost true last p = true ∧
    acceptPost false d p = false ∧
    (∀ (b : Bool) (w : Int) (raws : List RawPost),
      scrape_thread b w raws
        = (raws.filter (acceptPost b w)).map
            (fun q => toRecord q (q.post_date.getD 0))) := by
  have hid' : p.post_id.isEmpty = false := by
    rw [Bool.eq_false_iff]
    intro h
    exact hid ((String.isEmpty_iff _).mp h)
  have hauthor' : (p.author != "Unknown") = true := by
    simpa using hauthor
  have hcontent' : p.content.isEmpty = false := by
    rw [Bool.eq_false_iff]
    intro h
    exact hcontent ((String.isEmpty_iff _).mp h)
  refine ⟨?_, ?_, ?_, ?_⟩
  · simp [acceptPost, hdate, hid', hauthor', hcontent', inScope]
  · simp [acceptPost, hdate, hid', hauthor', hcontent', inScope]
  · simp [acceptPost, hdate, hid', hauthor', hcontent', inScope]
  · intro b w raws
    induction raws with
    | nil => rfl
    | cons q rest ih =>
      cases hq : q.post_date with
      | none =>
        have hacc : acceptPost b w q = false := by rw [acceptPost, hq]
        simp [scrape_thread, hq, hacc, List.filter_cons, ih]
      | some d' =>
        by_cases hacc : acceptPost b w q = true
        · simp [scrape_thread, hq, hacc, List.filter_cons, ih]
        · rw [Bool.not_eq_true] at hacc
          simp [scrape_thread, hq, hacc, List.filter_cons, ih]

theorem C5_scope_filter_witness :
    (acceptPost false 3 ⟨"7", "ann", "hi", some 4⟩ = true ↔ (3 : Int) < 4) ∧
    acceptPost true 3 ⟨"7", "ann", "hi", some 4⟩ = true ∧
    acceptPost false 4 ⟨"7", "ann", "hi", some 4⟩ = false ∧
    (∀ (b : Bool) (w : Int) (raws : List RawPost),
      scrape_thread b w raws
        = (raws.filter (acceptPost b w)).map
            (fun q => toRecord q (q.post_date.getD 0))) :=
  C5_scope_filter 3 ⟨"7", "ann", "hi", some 4⟩ 4 rfl
    (by decide) (by decide) (by decide)

/-! ## Thread-processing loop of `main` (script0.1.py:614-648) -/

/-- A thread stub found by the index walk (`get_gpw_threads`,
script0.1.py:328-332). -/
structure ThreadStub where
  id : String
  title : String
  url : String
deriving DecidableEq

/-- The per-thread body of the processing loop (script0.1.py:618-628):
scrape the thread, and record it under its id in `all_new_data` iff it
yielded posts; the first post's author becomes `initial_post_author`. -/
def threadEntry (scrape : ThreadStub → List PostRecord) (t : ThreadStub) :
    Option (String × ThreadRecord) :=
  match scrape t with
  | [] => none
  | p :: ps => some (t.id, ⟨t.id, t.title, t.url, p.author, p :: ps⟩)

/-- The processing loop of `main` (script0.1.py:614):
`for i, thread in enumerate(threads[:6], 1)` — only the first six discovered
threads are ever fetched and scraped; `all_new_data` is modelled as the
association list of its insertions. -/
def processThreads (scrape : ThreadStub → List PostRecord)
    (threads : List ThreadStub) : List (String × ThreadRecord) :=
  (threads.take 6).filterMap (threadEntry scrape)

/-- C9: each run fetches and scrapes only the first six threads discovered
by the index walk.  The recorded data is unchanged if the thread list is cut
to its first six entries or if the scraping function is altered on every
later thread (those threads are never visited), every recorded entry stems
from one of the first six stubs, and at most six threads are recorded. -/
theorem C9_thread_slice (threads : List ThreadStub)
    (scrape scrape' : ThreadStub → List PostRecord)
    (hagree : ∀ t ∈ threads.take 6, scrape t = scrape' t) :
    processThreads scrape threads = processThreads scrape' threads ∧
    processThreads scrape threads = processThreads scrape (threads.take 6) ∧
    (∀ e ∈ processThreads scrape threads, ∃ t ∈ threads.take 6,
      e.1 = t.id ∧ e.2.thread_url = t.url ∧ e.2.posts = scrape t) ∧
    (processThreads scrape threads).length ≤ 6 := by
  refine ⟨?_, ?_, ?_, ?_⟩
  · unfold processThreads
    apply List.filterMap_congr
    intro t ht
    unfold threadEntry
    rw [hagree t ht]
  · unfold processThreads
    rw [List.take_take, min_self]
  · intro e he
    rcases List.mem_filterMap.mp he with ⟨t, ht, hsome⟩
    refine ⟨t, ht, ?_⟩
    unfold threadEntry at hsome
    cases hs : scrape t with
    | nil => rw [hs] at hsome; cases hsome
    | cons p ps =>
      rw [hs] at hsome
      cases hsome
      exact ⟨rfl, rfl, rfl⟩
  · calc (processThreads scrape threads).length
        ≤ (threads.take 6).length := List.length_filterMap_le _ _
      _ ≤ 6 := by rw [List.length_take]; exact min_le_left _ _

theorem C9_thread_slice_witness :
    (processThreads (fun _ => []) [⟨"1", "a", "u1"⟩, ⟨"2", "b", "u2"⟩]
        = processThreads (fun _ => []) [⟨"1", "a", "u1"⟩, ⟨"2", "b", "u2"⟩]) ∧
    (processThreads (fun _ => []) [⟨"1", "a", "u1"⟩, ⟨"2", "b", "u2"⟩]
        = processThreads (fun _ => [])
            (([⟨"1", "a", "u1"⟩, ⟨"2", "b", "u2"⟩] : List ThreadStub).take 6)) ∧
    (∀ e ∈ processThreads (fun _ => []) [⟨"1", "a", "u1"⟩, ⟨"2", "b", "u2"⟩],
      ∃ t ∈ ([⟨"1", "a", "u1"⟩, ⟨"2", "b", "u2"⟩] : List ThreadStub).take 6,
        e.1 = t.id ∧ e.2.thread_url = t.url ∧ e.2.posts = []) ∧
    (processThreads (fun _ => []) [⟨"1", "a", "u1"⟩, ⟨"2", "b", "u2"⟩]).length
      ≤ 6 :=
  C9_thread_slice [⟨"1", "a", "u1"⟩, ⟨"2", "b", "u2"⟩]
    (fun _ => []) (fun _ => []) (fun _ _ => rfl)

/-! ## Pagination walk (`get_gpw_threads` script0.1.py:272-374 and
`scrape_thread` script0.1.py:437-541) -/

/-- One fetched page: its extracted records and the resolved next-page link,
if any (`current_url` recomputed at the end of each loop body). -/
structure Page (υ α : Type) where
  recs : List α
  next : Option υ

/-- The `while current_url:` loop shared by `get_gpw_threads` and
`scrape_thread`: fetch the current URL (a failing fetch or extraction is
caught by the `except` and breaks the loop — modelled by `site url = none`),
collect the page's records, move to the next link.  The loop keeps no
visited-URL set and has no cycle guard, so by itself it need not terminate;
`fuel` bounds the number of iterations observed, and the returned flag tells
whether the loop stopped on its own within that bound.  The returned number
counts fetch attempts (`page_num` in the code). -/
def walkAux {υ α : Type} (site : υ → Option (Page υ α)) :
    Nat → Option υ → List α → Nat → List α × Nat × Bool
  | _, none, acc, fetches => (acc, fetches, true)
  | 0, some _, acc, fetches => (acc, fetches, false)
  | fuel + 1, some url, acc, fetches =>
    match site url with
    | none => (acc, fetches + 1, true)
    | some pg => walkAux site fuel pg.next (acc ++ pg.recs) (fetches + 1)

def walk {υ α : Type} (site : υ → Option (Page υ α)) (entry : υ)
    (fuel : Nat) : List α × Nat × Bool :=
  walkAux site fuel (some entry) [] 0

/-- A well-formed finite page sequence: page `i` carries `pages[i]` and
links to page `i + 1`; the last page has no next link. -/
def chainSite {α : Type} (pages : List (List α)) : Nat → Option (Page Nat α) :=
  fun i =>
    if h : i < pages.length then
      some ⟨pages.get ⟨i, h⟩,
        if i + 1 < pages.length then some (i + 1) else none⟩
    else none

theorem walkAux_chain {α : Type} (pages : List (List α)) :
    ∀ (fuel k fc : Nat) (acc : List α), k < pages.length →
      pages.length - k ≤ fuel →
      walkAux (chainSite pages) fuel (some k) acc fc
        = (acc ++ (pages.drop k).flatten, fc + (pages.length - k), true) := by
  intro fuel
  induction fuel with
  | zero =>
    intro k fc acc hk hle
    omega
  | succ n ih =>
    intro k fc acc hk hle
    have hdrop : pages.drop k = pages.get ⟨k, hk⟩ :: pages.drop (k + 1) :=
      List.drop_eq_getElem_cons hk
    by_cases hnext : k + 1 < pages.length
    · have hsite : chainSite pages k
          = some ⟨pages.get ⟨k, hk⟩, some (k + 1)⟩ := by
        simp [chainSite, hk, hnext]
      simp only [walkAux, hsite]
      rw [ih (k + 1) (fc + 1) (acc ++ pages.get ⟨k, hk⟩) hnext (by omega)]
      rw [hdrop]
      simp only [List.flatten_cons, List.append_assoc]
      refine congrArg _ ?_
      have harith : fc + 1 + (pages.length - (k + 1)) = fc + (pages.length - k) := by
        omega
      rw [harith]
    · have hsite : chainSite pages k
          = some ⟨pages.get ⟨k, hk⟩, none⟩ := by
        simp [chainSite, hk, hnext]
      simp only [walkAux, hsite]
      have hdrop2 : pages.drop (k + 1) = [] :=
        List.drop_eq_nil_of_le (by omega)
      rw [hdrop, hdrop2]
      have harith : fc + 1 = fc + (pages.length - k) := by omega
      simp [harith]

/-- A one-page site whose next link points back at itself. -/
def selfLoopSite (α : Type) : Unit → Option (Page Unit α) :=
  fun _ => some ⟨[], some ()⟩

theorem walkAux_selfLoop (α : Type) :
    ∀ (fuel fc : Nat),
      walkAux (selfLoopSite α) fuel (some ()) [] fc = ([], fc + fuel, false) := by
  intro fuel
  induction fuel with
  | zero => intro fc; rfl
  | succ n ih =>
    intro fc
    rw [walkAux]
    show walkAux (selfLoopSite α) n (some ()) ([] ++ []) (fc + 1) = _
    rw [List.append_nil, ih (fc + 1)]
    refine congrArg _ ?_
    have : fc + 1 + n = fc + (n + 1) := by omega
    rw [this]

/-- C4 fails on the code: neither `get_gpw_threads` nor `scrape_thread`
tracks visited URLs, and no `PaginationError` (or any other abort) exists
anywhere in the script.  On a page whose "next" link points back to itself
the walk is still running after 100 fetches of the same URL — a visited-URL
guard would have stopped after at most 2 — and has raised nothing. -/
theorem C4_pagination_counterexample :
    walk (selfLoopSite Unit) () 100 = ([], 100, false) :=
  walkAux_selfLoop Unit 100 0

/-- C4 amended: a walk over a finite chain of `N` pages whose last page has
no next link terminates by itself after exactly `N` fetches, yielding the
pages' records in order; but the code has no visited-URL set and no
`PaginationError`, so a walk whose next link re-enters an already-visited
URL never stops: on the self-loop site it is still running after any number
of fetches. -/
theorem C4_pagination_amended {α : Type} (pages : List (List α)) (fuel : Nat)
    (hne : 0 < pages.length) (hfuel : pages.length ≤ fuel) :
    walk (chainSite pages) 0 fuel = (pages.flatten, pages.length, true) ∧
    ∀ f, walk (selfLoopSite α) () f = ([], f, false) := by
  constructor
  · have h := walkAux_chain pages fuel 0 0 [] hne (by omega)
    simpa [walk] using h
  · intro f
    have h := walkAux_selfLoop α f 0
    simpa [walk] using h

theorem C4_pagination_amended_witness :
    walk (chainSite [[1], [2, 3]]) 0 5 = ([1, 2, 3], 2, true) ∧
    ∀ f, walk (selfLoopSite Nat) () f = ([], f, false) :=
  C4_pagination_amended [[1], [2, 3]] 5 (by decide) (by decide)

/-! ## Date parsing (`parse_date`, script0.1.py:379-429)

The parser is embedded down to character level: the Polish-date regex
`(\d{1,2})\s+(\w+)\s+(\d{4}),?\s+(\d{1,2}):(\d{2})` searched with
`re.search` (leftmost position, greedy quantifiers with backtracking), the
month table, Python `datetime` construction (a `ValueError` is caught by
the bare `except` and falls through), and the four `strptime` formats with
CPython's `_strptime` per-directive regexes. -/

/-- A Python `datetime`: calendar fields plus `tzinfo`, the latter modelled
as the UTC offset it stands for (`some 0` is `timezone.utc`, `none` is a
naive datetime). -/
structure PyDateTime where
  year : Nat
  month : Nat
  day : Nat
  hour : Nat
  minute : Nat
  second : Nat
  tzinfo : Option Int
deriving DecidableEq

/-- ASCII whitespace — what `\s` and `str.strip` treat as blank on the
inputs at hand. -/
def isSpaceChar (c : Char) : Bool :=
  c = ' ' || c = '\t' || c = '\n' || c = '\r' || c = '\x0b' || c = '\x0c'

def isDigitChar (c : Char) : Bool := '0' ≤ c && c ≤ '9'

def digitVal (c : Char) : Nat := c.toNat - '0'.toNat

/-- Python `\w` restricted to the alphabet the script meets: ASCII letters,
digits, underscore, and the Polish letters of the month names. -/
def isWordChar (c : Char) : Bool :=
  ('a' ≤ c && c ≤ 'z') || ('A' ≤ c && c ≤ 'Z') || isDigitChar c || c = '_' ||
    c = 'ą' || c = 'ć' || c = 'ę' || c = 'ł' || c = 'ń' || c = 'ó' ||
    c = 'ś' || c = 'ź' || c = 'ż' ||
    c = 'Ą' || c = 'Ć' || c = 'Ę' || c = 'Ł' || c = 'Ń' || c = 'Ó' ||
    c = 'Ś' || c = 'Ź' || c = 'Ż'

/-- `str.lower()` on that alphabet. -/
def lowerChar (c : Char) : Char :=
  if 'A' ≤ c && c ≤ 'Z' then Char.ofNat (c.toNat + 32)
  else if c = 'Ą' then 'ą' else if c = 'Ć' then 'ć' else if c = 'Ę' then 'ę'
  else if c = 'Ł' then 'ł' else if c = 'Ń' then 'ń' else if c = 'Ó' then 'ó'
  else if c = 'Ś' then 'ś' else if c = 'Ź' then 'ź' else if c = 'Ż' then 'ż'
  else c

/-- `str.strip()`. -/
def pyStrip (cs : List Char) : List Char :=
  ((cs.dropWhile isSpaceChar).reverse.dropWhile isSpaceChar).reverse

/-- The `polish_months` table (script0.1.py:388-401), with the month number
for value. -/
def polish_months : List (List Char × Nat) :=
  [("stycznia".data, 1), ("styczeń".data, 1), ("sty".data, 1),
   ("lutego".data, 2), ("luty".data, 2), ("lut".data, 2),
   ("marca".data, 3), ("marzec".data, 3), ("mar".data, 3),
   ("kwietnia".data, 4), ("kwiecień".data, 4), ("kwi".data, 4),
   ("maja".data, 5), ("maj".data, 5),
   ("czerwca".data, 6), ("czerwiec".data, 6), ("cze".data, 6),
   ("lipca".data, 7), ("lipiec".data, 7), ("lip".data, 7),
   ("sierpnia".data, 8), ("sierpień".data, 8), ("sie".data, 8),
   ("września".data, 9), ("wrzesień".data, 9), ("wrz".data, 9),
   ("października".data, 10), ("październik".data, 10), ("paź".data, 10),
   ("listopada".data, 11), ("listopad".data, 11), ("lis".data, 11),
   ("grudnia".data, 12), ("grudzień".data, 12), ("gru".data, 12)]

/-- `polish_months.get(month_name.lower())`. -/
def monthLookup (m : List Char) : Option Nat :=
  (polish_months.find? (fun kv => kv.1 == m)).map (·.2)

def isLeapYear (y : Nat) : Bool :=
  (y % 4 == 0 && y % 100 != 0) || y % 400 == 0

def daysInMonth (y m : Nat) : Nat :=
  if m == 2 then (if isLeapYear y then 29 else 28)
  else if m == 4 || m == 6 || m == 9 || m == 11 then 30
  else 31

/-- `datetime(y, m, d, h, mi, s, tzinfo=timezone.utc)`: `none` models the
`ValueError` raised on out-of-range fields, which the script's bare
`except` catches and turns into a fall-through. -/
def mkDatetimeUTC (y m d h mi s : Nat) : Option PyDateTime :=
  if 1 ≤ y ∧ y ≤ 9999 ∧ 1 ≤ m ∧ m ≤ 12 ∧ 1 ≤ d ∧ d ≤ daysInMonth y m
      ∧ h ≤ 23 ∧ mi ≤ 59 ∧ s ≤ 59 then
    some ⟨y, m, d, h, mi, s, some 0⟩
  else none

/-- `\d{1,2}`: greedy, so the two-digit reading comes before the one-digit
reading; each candidate is the value read and the remaining characters. -/
def d12Cands : List Char → List (Nat × List Char)
  | c1 :: c2 :: rest =>
    if isDigitChar c1 && isDigitChar c2 then
      [(digitVal c1 * 10 + digitVal c2, rest), (digitVal c1, c2 :: rest)]
    else if isDigitChar c1 then [(digitVal c1, c2 :: rest)]
    else []
  | [c1] => if isDigitChar c1 then [(digitVal c1, [])] else []
  | [] => []

/-- `\d{4}`, exactly four digits. -/
def d4Exact : List Char → Option (Nat × List Char)
  | c1 :: c2 :: c3 :: c4 :: rest =>
    if isDigitChar c1 && isDigitChar c2 && isDigitChar c3 && isDigitChar c4 then
      some (((digitVal c1 * 10 + digitVal c2) * 10 + digitVal c3) * 10
        + digitVal c4, rest)
    else none
  | _ => none

/-- `\d{2}`, exactly two digits. -/
def d2Exact : List Char → Option (Nat × List Char)
  | c1 :: c2 :: rest =>
    if isDigitChar c1 && isDigitChar c2 then
      some (digitVal c1 * 10 + digitVal c2, rest)
    else none
  | _ => none

/-- `\s+`: the rests after consuming k whitespace characters, longest run
first (greedy with backtracking). -/
def wsCands (cs : List Char) : List (List Char) :=
  let n := (cs.takeWhile isSpaceChar).length
  (List.range n).map (fun k => cs.drop (n - k))

/-- `\w+`: captured word and rest, longest run first. -/
def wordCands (cs : List Char) : List (List Char × List Char) :=
  let run := cs.takeWhile isWordChar
  let n := run.length
  (List.range n).map (fun k => (run.take (n - k), cs.drop (n - k)))

/-- `,?`: greedy — with the comma consumed first when present. -/
def commaCands : List Char → List (List Char)
  | c :: rest => if c = ',' then [rest, c :: rest] else [c :: rest]
  | [] => [[]]

/-- One attempt of the Polish-date regex anchored at the given suffix, in
the regex engine's preference order; yields day, the captured month word,
year, hour, minute. -/
def polishAt (cs : List Char) : Option (Nat × List Char × Nat × Nat × Nat) :=
  (d12Cands cs).findSome? fun dc =>
    (wsCands dc.2).findSome? fun r2 =>
      (wordCands r2).findSome? fun mc =>
        (wsCands mc.2).findSome? fun r4 =>
          match d4Exact r4 with
          | none => none
          | some yc =>
            (commaCands yc.2).findSome? fun r6 =>
              (wsCands r6).findSome? fun r7 =>
                (d12Cands r7).findSome? fun hc =>
                  match hc.2 with
                  | ':' :: r9 =>
                    (match d2Exact r9 with
                     | none => none
                     | some mic => some (dc.1, mc.1, yc.1, hc.1, mic.1))
                  | _ => none

/-- `re.search`: try every start position from the left, first hit wins. -/
def polishSearch : List Char → Option (Nat × List Char × Nat × Nat × Nat)
  | [] => none
  | c :: rest =>
    match polishAt (c :: rest) with
    | some r => some r
    | none => polishSearch rest

/-- One directive of a `strptime` format.  CPython's `_strptime` compiles
`%d` to `3[01]|[12]\d|0[1-9]|[1-9]`, `%m` to `1[0-2]|0[1-9]|[1-9]`, `%Y` to
`\d\d\d\d`, `%H` to `2[0-3]|[0-1]\d|\d`, `%M` to `[0-5]\d|\d`, `%S` to
`6[01]|[0-5]\d|\d`; a whitespace run in the format becomes `\s+`; other
characters are literals. -/
inductive FmtTok where
  | dayTok | monTok | yearTok | hourTok | minuteTok | secondTok
  | litTok (c : Char) | spTok
deriving DecidableEq

/-- `3[01]|[12]\d|0[1-9]|[1-9]` at one position, alternatives in order. -/
def dayCands : List Char → List (Nat × List Char)
  | c1 :: c2 :: rest =>
    (if c1 = '3' && (c2 = '0' || c2 = '1') then
      [(30 + digitVal c2, rest)]
    else if (c1 = '1' || c1 = '2') && isDigitChar c2 then
      [(digitVal c1 * 10 + digitVal c2, rest)]
    else if c1 = '0' && ('1' ≤ c2 && c2 ≤ '9') then
      [(digitVal c2, rest)]
    else []) ++
      (if '1' ≤ c1 && c1 ≤ '9' then [(digitVal c1, c2 :: rest)] else [])
  | [c1] => if '1' ≤ c1 && c1 ≤ '9' then [(digitVal c1, [])] else []
  | [] => []

/-- `1[0-2]|0[1-9]|[1-9]`. -/
def monCands : List Char → List (Nat × List Char)
  | c1 :: c2 :: rest =>
    (if c1 = '1' && ('0' ≤ c2 && c2 ≤ '2') then
      [(10 + digitVal c2, rest)]
    else if c1 = '0' && ('1' ≤ c2 && c2 ≤ '9') then
      [(digitVal c2, rest)]
    else []) ++
      (if '1' ≤ c1 && c1 ≤ '9' then [(digitVal c1, c2 :: rest)] else [])
  | [c1] => if '1' ≤ c1 && c1 ≤ '9' then [(digitVal c1, [])] else []
  | [] => []

/-- `2[0-3]|[0-1]\d|\d`. -/
def hourCands : List Char → List (Nat × List Char)
  | c1 :: c2 :: rest =>
    (if c1 = '2' && ('0' ≤ c2 && c2 ≤ '3') then
      [(20 + digitVal c2, rest)]
    else if (c1 = '0' || c1 = '1') && isDigitChar c2 then
      [(digitVal c1 * 10 + digitVal c2, rest)]
    else []) ++
      (if isDigitChar c1 then [(digitVal c1, c2 :: rest)] else [])
  | [c1] => if isDigitChar c1 then [(digitVal c1, [])] else []
  | [] => []

/-- `[0-5]\d|\d`. -/
def minuteCands : List Char → List (Nat × List Char)
  | c1 :: c2 :: rest =>
    (if ('0' ≤ c1 && c1 ≤ '5') && isDigitChar c2 then
      [(digitVal c1 * 10 + digitVal c2, rest)]
    else []) ++
      (if isDigitChar c1 then [(digitVal c1, c2 :: rest)] else [])
  | [c1] => if isDigitChar c1 then [(digitVal c1, [])] else []
  | [] => []

/-- `6[01]|[0-5]\d|\d`. -/
def secondCands : List Char → List (Nat × List Char)
  | c1 :: c2 :: rest =>
    (if c1 = '6' && (c2 = '0' || c2 = '1') then
      [(60 + digitVal c2, rest)]
    else if ('0' ≤ c1 && c1 ≤ '5') && isDigitChar c2 then
      [(digitVal c1 * 10 + digitVal c2, rest)]
    else []) ++
      (if isDigitChar c1 then [(digitVal c1, c2 :: rest)] else [])
  | [c1] => if isDigitChar c1 then [(digitVal c1, [])] else []
  | [] => []

/-- `\d\d\d\d` (single alternative). -/
def yearCands (cs : List Char) : List (Nat × List Char) :=
  match d4Exact cs with
  | some vc => [vc]
  | none => []

/-- All consumption candidates of one directive at one position, in the
regex's preference order; literal and whitespace directives carry value 0. -/
def tokCands : FmtTok → List Char → List (Nat × List Char)
  | .dayTok, cs => dayCands cs
  | .monTok, cs => monCands cs
  | .yearTok, cs => yearCands cs
  | .hourTok, cs => hourCands cs
  | .minuteTok, cs => minuteCands cs
  | .secondTok, cs => secondCands cs
  | .litTok c, c1 :: rest => if c1 = c then [(0, rest)] else []
  | .litTok _, [] => []
  | .spTok, cs => (wsCands cs).map (fun r => (0, r))

/-- The partially-filled result of a `strptime` match, with CPython's
defaults (year 1900, month 1, day 1). -/
structure TimeParts where
  year : Nat := 1900
  month : Nat := 1
  day : Nat := 1
  hour : Nat := 0
  minute : Nat := 0
  second : Nat := 0
deriving DecidableEq

def applyTok (t : FmtTok) (v : Nat) (p : TimeParts) : TimeParts :=
  match t with
  | .dayTok => { p with day := v }
  | .monTok => { p with month := v }
  | .yearTok => { p with year := v }
  | .hourTok => { p with hour := v }
  | .minuteTok => { p with minute := v }
  | .secondTok => { p with second := v }
  | .litTok _ => p
  | .spTok => p

/-- Backtracking match of a whole format against the whole string:
CPython anchors the compiled regex at the start and raises on unconverted
trailing data, so the match must consume everything. -/
def matchToks : List FmtTok → List Char → TimeParts → Option TimeParts
  | [], [], p => some p
  | [], _ :: _, _ => none
  | t :: ts, cs, p =>
    (tokCands t cs).findSome? (fun vc => matchToks ts vc.2 (applyTok t vc.1 p))

/-- `'%d.%m.%Y %H:%M'`. -/
def fmtDotted : List FmtTok :=
  [.dayTok, .litTok '.', .monTok, .litTok '.', .yearTok, .spTok,
   .hourTok, .litTok ':', .minuteTok]

/-- `'%d-%m-%Y %H:%M'`. -/
def fmtDashed : List FmtTok :=
  [.dayTok, .litTok '-', .monTok, .litTok '-', .yearTok, .spTok,
   .hourTok, .litTok ':', .minuteTok]

/-- `'%Y-%m-%d %H:%M:%S'`. -/
def fmtIso : List FmtTok :=
  [.yearTok, .litTok '-', .monTok, .litTok '-', .dayTok, .spTok,
   .hourTok, .litTok ':', .minuteTok, .litTok ':', .secondTok]

/-- `'%d/%m/%Y %H:%M'`. -/
def fmtSlashed : List FmtTok :=
  [.dayTok, .litTok '/', .monTok, .litTok '/', .yearTok, .spTok,
   .hourTok, .litTok ':', .minuteTok]

/-- `datetime.strptime(s, fmt).replace(tzinfo=timezone.utc)` under the
script's try/except: a failed match or an invalid calendar date (e.g. a
February 31st) yields `none`. -/
def strptimeUTC (fmt : List FmtTok) (cs : List Char) : Option PyDateTime :=
  match matchToks fmt cs {} with
  | none => none
  | some p => mkDatetimeUTC p.year p.month p.day p.hour p.minute p.second

/-- The Polish branch (script0.1.py:404-413): regex search, month lookup on
the lowered captured word, datetime construction; each failure falls
through (returns `none` here). -/
def polishBranch (cs : List Char) : Option PyDateTime :=
  match polishSearch cs with
  | none => none
  | some (d, mon, y, h, mi) =>
    match monthLookup (mon.map lowerChar) with
    | none => none
    | some m => mkDatetimeUTC y m d h mi 0

/-- The four standard formats, tried in fixed order
(script0.1.py:416-427). -/
def tryFormats (cs : List Char) : Option PyDateTime :=
  match strptimeUTC fmtDotted cs with
  | some dt => some dt
  | none =>
    match strptimeUTC fmtDashed cs with
    | some dt => some dt
    | none =>
      match strptimeUTC fmtIso cs with
      | some dt => some dt
      | none => strptimeUTC fmtSlashed cs

/-- `parse_date` (script0.1.py:379-429): falsy check, strip, Polish regex
branch, then the standard formats; `none` on every failure. -/
def parse_date (s : String) : Option PyDateTime :=
  if s.data.isEmpty then none
  else
    match polishBranch (pyStrip s.data) with
    | some dt => some dt
    | none => tryFormats (pyStrip s.data)

theorem mkDatetimeUTC_tz {y m d h mi s : Nat} {dt : PyDateTime}
    (hmk : mkDatetimeUTC y m d h mi s = some dt) : dt.tzinfo = some 0 := by
  unfold mkDatetimeUTC at hmk
  split at hmk
  · cases hmk; rfl
  · cases hmk

theorem strptimeUTC_tz (fmt : List FmtTok) (cs : List Char) (dt : PyDateTime)
    (h : strptimeUTC fmt cs = some dt) : dt.tzinfo = some 0 := by
  unfold strptimeUTC at h
  cases hm : matchToks fmt cs {} with
  | none => rw [hm] at h; cases h
  | some p => rw [hm] at h; exact mkDatetimeUTC_tz h

theorem polishBranch_tz (cs : List Char) (dt : PyDateTime)
    (h : polishBranch cs = some dt) : dt.tzinfo = some 0 := by
  unfold polishBranch at h
  cases hs : polishSearch cs with
  | none => rw [hs] at h; cases h
  | some r =>
    obtain ⟨d, mon, y, hh, mi⟩ := r
    rw [hs] at h
    have h' : (match monthLookup (mon.map lowerChar) with
        | none => none
        | some m => mkDatetimeUTC y m d hh mi 0) = some dt := h
    cases hl : monthLookup (mon.map lowerChar) with
    | none => rw [hl] at h'; cases h'
    | some m => rw [hl] at h'; exact mkDatetimeUTC_tz h'

theorem tryFormats_tz (cs : List Char) (dt : PyDateTime)
    (h : tryFormats cs = some dt) : dt.tzinfo = some 0 := by
  unfold tryFormats at h
  cases h1 : strptimeUTC fmtDotted cs with
  | some d1 =>
    rw [h1] at h
    cases h
    exact strptimeUTC_tz _ _ _ h1
  | none =>
    rw [h1] at h
    cases h2 : strptimeUTC fmtDashed cs with
    | some d2 =>
      rw [h2] at h
      cases h
      exact strptimeUTC_tz _ _ _ h2
    | none =>
      rw [h2] at h
      cases h3 : strptimeUTC fmtIso cs with
      | some d3 =>
        rw [h3] at h
        cases h
        exact strptimeUTC_tz _ _ _ h3
      | none =>
        rw [h3] at h
        exact strptimeUTC_tz _ _ _ h

/-- C6: the date parser sends the Polish long form
"05 sierpnia 2024, 14:30" to the UTC instant 2024-08-05T14:30:00Z, the
numeric form "05.08.2024 14:30" to the same instant, and an unrecognized
string to `none`; whenever neither the Polish branch nor any of the four
standard formats succeeds the result is `none` — no error escapes and no
default date is substituted. -/
theorem C6_parse_date (s : String)
    (hp : polishBranch (pyStrip s.data) = none)
    (hf : tryFormats (pyStrip s.data) = none) :
    parse_date "05 sierpnia 2024, 14:30"
        = some ⟨2024, 8, 5, 14, 30, 0, some 0⟩ ∧
    parse_date "05.08.2024 14:30" = some ⟨2024, 8, 5, 14, 30, 0, some 0⟩ ∧
    parse_date "tomorrow at noon" = none ∧
    parse_date s = none := by
  refine ⟨by decide, by decide, by decide, ?_⟩
  unfold parse_date
  by_cases he : s.data.isEmpty
  · rw [if_pos he]
  · rw [if_neg he, hp]
    exact hf

theorem C6_parse_date_witness :
    polishBranch (pyStrip "gibberish".data) = none ∧
    tryFormats (pyStrip "gibberish".data) = none ∧
    (parse_date "05 sierpnia 2024, 14:30"
        = some ⟨2024, 8, 5, 14, 30, 0, some 0⟩ ∧
     parse_date "05.08.2024 14:30" = some ⟨2024, 8, 5, 14, 30, 0, some 0⟩ ∧
     parse_date "tomorrow at noon" = none ∧
     parse_date "gibberish" = none) :=
  ⟨by decide, by decide, C6_parse_date "gibberish" (by decide) (by decide)⟩

/-- C10: `parse_date` is total and timezone-normalizing: the empty string
yields `none`, and any datetime it returns carries an explicit UTC tzinfo —
it never returns a naive instant (both produced branches construct the
datetime with `tzinfo=timezone.utc` or `.replace(tzinfo=timezone.utc)`). -/
theorem C10_parse_date_total_utc :
    parse_date "" = none ∧
    ∀ (s : String) (dt : PyDateTime),
      parse_date s = some dt → dt.tzinfo = some 0 := by
  refine ⟨rfl, ?_⟩
  intro s dt h
  unfold parse_date at h
  by_cases he : s.data.isEmpty
  · rw [if_pos he] at h; cases h
  · rw [if_neg he] at h
    cases hp : polishBranch (pyStrip s.data) with
    | some dt' =>
      rw [hp] at h
      cases h
      exact polishBranch_tz _ _ hp
    | none =>
      rw [hp] at h
      exact tryFormats_tz _ _ h

theorem C10_parse_date_total_utc_witness :
    parse_date "05.08.2024 14:30" = some ⟨2024, 8, 5, 14, 30, 0, some 0⟩ ∧
    (⟨2024, 8, 5, 14, 30, 0, some 0⟩ : PyDateTime).tzinfo = some 0 :=
  ⟨by decide,
    C10_parse_date_total_utc.2 "05.08.2024 14:30"
      ⟨2024, 8, 5, 14, 30, 0, some 0⟩ (by decide)⟩
